import Mathlib

/-!
Verification of the `ts-radius` RADIUS client library.

Shallow embedding conventions
- A Node.js `Buffer` is a `List Nat` whose elements are byte values (0..255).
- A JavaScript string produced by `buffer.toString("utf8")` is represented by
  its byte content (`List Nat`); textual results built by the decoders
  (dotted quads, hex dumps, ...) are Lean `String`s, matching the JS values.
- `crypto.createHash("md5")` is embedded as an executable MD5 over byte lists.
- The regular-expression engine behind `options.valuePattern` is an external
  collaborator and is passed in as a function
  `matchFn : String → List Nat → Option (List Nat)` returning capture group 1
  of a successful match (`none` when there is no match or the group is absent).
- The attribute dictionary (`src/dictionary.ts`, a static data table which the
  spec declares to be data, not design) is passed in as a parameter
  `dict : Nat → Option AttrDef`.
- The one exception path inside the response-authenticator `try` block
  (a fault in the hashing library) is modelled by the boolean `hashThrows`.
-/

namespace TsRadius

/-- Two to the 32nd, the modulus for all 32-bit MD5 arithmetic. -/
def two32 : Nat := 4294967296

/-- Addition modulo 2^32. -/
def add32 (a b : Nat) : Nat := (a + b) % two32

/-- Complement within 32 bits. -/
def not32 (x : Nat) : Nat := Nat.xor x 4294967295

/-- Left rotation within 32 bits (for `x < 2^32`). -/
def rotl32 (x n : Nat) : Nat := ((x <<< n) % two32) ||| (x >>> (32 - n))

/-- Serialize a 32-bit word as four little-endian bytes. -/
def u32le (n : Nat) : List Nat :=
  [n % 256, n / 256 % 256, n / 65536 % 256, n / 16777216 % 256]

/-- Serialize a 64-bit word as eight little-endian bytes. -/
def u64le (n : Nat) : List Nat :=
  [n % 256, n / 256 % 256, n / 65536 % 256, n / 16777216 % 256,
   n / 4294967296 % 256, n / 1099511627776 % 256,
   n / 281474976710656 % 256, n / 72057594037927936 % 256]

/-- The MD5 per-step sine-derived constants. -/
def md5K : List Nat :=
  [0xd76aa478, 0xe8c7b756, 0x242070db, 0xc1bdceee,
   0xf57c0faf, 0x4787c62a, 0xa8304613, 0xfd469501,
   0x698098d8, 0x8b44f7af, 0xffff5bb1, 0x895cd7be,
   0x6b901122, 0xfd987193, 0xa679438e, 0x49b40821,
   0xf61e2562, 0xc040b340, 0x265e5a51, 0xe9b6c7aa,
   0xd62f105d, 0x02441453, 0xd8a1e681, 0xe7d3fbc8,
   0x21e1cde6, 0xc33707d6, 0xf4d50d87, 0x455a14ed,
   0xa9e3e905, 0xfcefa3f8, 0x676f02d9, 0x8d2a4c8a,
   0xfffa3942, 0x8771f681, 0x6d9d6122, 0xfde5380c,
   0xa4beea44, 0x4bdecfa9, 0xf6bb4b60, 0xbebfbc70,
   0x289b7ec6, 0xeaa127fa, 0xd4ef3085, 0x04881d05,
   0xd9d4d039, 0xe6db99e5, 0x1fa27cf8, 0xc4ac5665,
   0xf4292244, 0x432aff97, 0xab9423a7, 0xfc93a039,
   0x655b59c3, 0x8f0ccc92, 0xffeff47d, 0x85845dd1,
   0x6fa87e4f, 0xfe2ce6e0, 0xa3014314, 0x4e0811a1,
   0xf7537e82, 0xbd3af235, 0x2ad7d2bb, 0xeb86d391]

/-- The MD5 per-step left-rotation amounts. -/
def md5S : List Nat :=
  [7, 12, 17, 22, 7, 12, 17, 22, 7, 12, 17, 22, 7, 12, 17, 22,
   5, 9, 14, 20, 5, 9, 14, 20, 5, 9, 14, 20, 5, 9, 14, 20,
   4, 11, 16, 23, 4, 11, 16, 23, 4, 11, 16, 23, 4, 11, 16, 23,
   6, 10, 15, 21, 6, 10, 15, 21, 6, 10, 15, 21, 6, 10, 15, 21]

/-- The MD5 round function for step `i` on words `b`, `c`, `d`. -/
def md5F (i b c d : Nat) : Nat :=
  if i < 16 then (b &&& c) ||| (not32 b &&& d)
  else if i < 32 then (d &&& b) ||| (not32 d &&& c)
  else if i < 48 then Nat.xor (Nat.xor b c) d
  else Nat.xor c (b ||| not32 d)

/-- The MD5 message-word index for step `i`. -/
def md5G (i : Nat) : Nat :=
  if i < 16 then i
  else if i < 32 then (5 * i + 1) % 16
  else if i < 48 then (3 * i + 5) % 16
  else (7 * i) % 16

/-- Read the `g`-th little-endian 32-bit word of a 64-byte chunk. -/
def le32At (chunk : List Nat) (g : Nat) : Nat :=
  chunk.getD (4 * g) 0 + 256 * chunk.getD (4 * g + 1) 0 +
    65536 * chunk.getD (4 * g + 2) 0 + 16777216 * chunk.getD (4 * g + 3) 0

/-- One MD5 step: rotate the state quadruple. -/
def md5Round (chunk : List Nat) (st : Nat × Nat × Nat × Nat) (i : Nat) :
    Nat × Nat × Nat × Nat :=
  match st with
  | (a, b, c, d) =>
    let t := add32 (add32 (add32 a (md5F i b c d)) (md5K.getD i 0)) (le32At chunk (md5G i))
    (d, add32 b (rotl32 t (md5S.getD i 0)), b, c)

/-- Process one 64-byte chunk: 64 steps then add back the incoming state. -/
def md5Chunk (st : Nat × Nat × Nat × Nat) (chunk : List Nat) :
    Nat × Nat × Nat × Nat :=
  match st, (List.range 64).foldl (md5Round chunk) st with
  | (a0, b0, c0, d0), (a, b, c, d) => (add32 a0 a, add32 b0 b, add32 c0 c, add32 d0 d)

/-- Split a byte list into 64-byte chunks (last chunk may be short). The
`fuel` argument makes the recursion structural so the kernel can evaluate it;
`fuel = l.length` always suffices because every step consumes 64 bytes. -/
def chunks64Go : Nat → List Nat → List (List Nat)
  | _, [] => []
  | 0, _ :: _ => []
  | fuel + 1, a :: l => ((a :: l).take 64) :: chunks64Go fuel ((a :: l).drop 64)

/-- Split a byte list into 64-byte chunks (last chunk may be short). -/
def chunks64 (l : List Nat) : List (List Nat) := chunks64Go l.length l

/-- MD5 padding: a 0x80 byte, zeros to 56 mod 64, then the bit length in
little-endian 64 bits. -/
def md5Pad (msg : List Nat) : List Nat :=
  msg ++ [128] ++ List.replicate ((120 - (msg.length + 1) % 64) % 64) 0 ++
    u64le ((8 * msg.length) % 18446744073709551616)

/-- MD5 of a byte list, as the 16-byte digest. Embeds
`crypto.createHash("md5").update(bytes).digest()`. -/
def md5 (msg : List Nat) : List Nat :=
  match (chunks64 (md5Pad msg)).foldl md5Chunk
      (1732584193, 4023233417, 2562383102, 271733878) with
  | (a, b, c, d) => u32le a ++ u32le b ++ u32le c ++ u32le d

/-! ## Byte and string helpers shared by the decoders -/

/-- A lowercase hexadecimal digit character. -/
def hexDigit (n : Nat) : Char :=
  if n < 10 then Char.ofNat (48 + n) else Char.ofNat (87 + n)

/-- Two lowercase hex digits for one byte, like `Buffer#toString("hex")`
produces per byte. -/
def byteHex (b : Nat) : String := String.mk [hexDigit (b / 16 % 16), hexDigit (b % 16)]

/-- Embeds `buffer.toString("hex")`: lowercase hex dump of a byte list. -/
def toHex (l : List Nat) : String := String.join (l.map byteHex)

/-- Embeds `buffer.readUInt32BE(0)` on the first four bytes. -/
def readU32BE (l : List Nat) : Nat :=
  16777216 * l.getD 0 0 + 65536 * l.getD 1 0 + 256 * l.getD 2 0 + l.getD 3 0

/-- Embeds `buffer.readUInt16BE(i)`. -/
def readU16BE (l : List Nat) (i : Nat) : Nat := 256 * l.getD i 0 + l.getD (i + 1) 0

/-- Embeds `buffer.slice(s, e)` for non-negative indices: JS clamps both ends to the
buffer and returns empty when `e ≤ s`. -/
def jsSlice (l : List Nat) (s e : Nat) : List Nat := (l.take e).drop s

/-- Lowercase hex of a number with no leading zeros, like JS
`n.toString(16)`. -/
def natHex (n : Nat) : String := String.mk (Nat.toDigits 16 n)

/-! ## helpers.ts: typed attribute decoding -/

/-- The semantic attribute types of the dictionary (`AttributeDefinition.type`). -/
inductive AttrType where
  | string | integer | integer64 | date | ipaddr | ipv6addr | ipv6pfx | ifid
deriving DecidableEq

/-- One dictionary entry (`AttributeDefinition`). The dictionary itself
(`src/dictionary.ts`) is a static data table; it is passed to the decoder as a
parameter `dict : Nat → Option AttrDef`. -/
structure AttrDef where
  name : String
  type : AttrType
deriving DecidableEq

/-- The decoded value carried by a standard parsed attribute. Each constructor
corresponds to one `decode*` helper of `helpers.ts`. -/
inductive AttrValue where
  | str (bytes : List Nat)
  | int (n : Nat)
  | int64 (n : Nat)
  | date (ms : Nat)
  | ip (s : String)
  | ipv6 (s : String)
  | ipv6p (s : String)
  | ifid (s : String)
  | hex (s : String)
deriving DecidableEq

/-- The `decodeString` helper: utf-8 view of the bytes (bytes kept by convention). -/
def decodeString (buffer : List Nat) : AttrValue := .str buffer

/-- The `decodeInteger` helper: big-endian u32 when the length is exactly 4, else 0. -/
def decodeInteger (buffer : List Nat) : AttrValue :=
  if buffer.length ≠ 4 then .int 0 else .int (readU32BE buffer)

/-- The `decodeInteger64` helper: big-endian u64 when the length is exactly 8, else 0. -/
def decodeInteger64 (buffer : List Nat) : AttrValue :=
  if buffer.length ≠ 8 then .int64 0
  else .int64 (readU32BE buffer * 4294967296 + readU32BE (buffer.drop 4))

/-- The `decodeDate` helper: `new Date(seconds * 1000)` when the length is exactly 4,
else the epoch; the `Date` is represented by its millisecond value. -/
def decodeDate (buffer : List Nat) : AttrValue :=
  if buffer.length ≠ 4 then .date 0 else .date (readU32BE buffer * 1000)

/-- The `decodeIpAddr` helper: dotted quad when the length is exactly 4, else "0.0.0.0". -/
def decodeIpAddr (buffer : List Nat) : AttrValue :=
  if buffer.length ≠ 4 then .ip ("0.0.0.0")
  else .ip (Nat.repr (buffer.getD 0 0) ++ "." ++ Nat.repr (buffer.getD 1 0) ++ "." ++
    Nat.repr (buffer.getD 2 0) ++ "." ++ Nat.repr (buffer.getD 3 0))

/-- Eight colon-separated hex groups of 16 bytes (no zero compression). -/
def ipv6Groups (bytes : List Nat) : String :=
  String.intercalate (":")
    ((List.range 8).map (fun i => natHex (readU16BE bytes (2 * i))))

/-- The `decodeIpv6Addr` helper: colon-hex groups when the length is exactly 16, else "::". -/
def decodeIpv6Addr (buffer : List Nat) : AttrValue :=
  if buffer.length ≠ 16 then .ipv6 ("::") else .ipv6 (ipv6Groups buffer)

/-- The `decodeIpv6Prefix` helper: `{reserved, prefix_length, prefix bytes…}` formatted as
`addr/len`; an input shorter than 2 bytes decodes to the empty string. -/
def decodeIpv6Pfx (buffer : List Nat) : AttrValue :=
  if buffer.length < 2 then .ipv6p ("")
  else
    let prefixLength := buffer.getD 1 0
    let full := ((buffer.drop 2).take 16) ++
      List.replicate (16 - (buffer.drop 2).length) 0
    .ipv6p (ipv6Groups full ++ "/" ++ Nat.repr prefixLength)

/-- The `decodeIfId` helper: colon-separated two-digit hex when the length is exactly 8,
else the plain hex dump. -/
def decodeIfId (buffer : List Nat) : AttrValue :=
  if buffer.length ≠ 8 then .hex (toHex buffer)
  else .ifid (String.intercalate (":") (buffer.map byteHex))

/-- One parsed Vendor-Specific sub-attribute: `{vendorType, value-as-hex}`. -/
structure SubAttr where
  vendorType : Nat
  value : String
deriving DecidableEq

/-- The `value` field of a decoded Vendor-Specific attribute: either the
ordered sub-attribute list or a hex string. -/
inductive VsaValue where
  | subs (l : List SubAttr)
  | hex (s : String)
deriving DecidableEq

/-- A decoded Vendor-Specific attribute (`VendorSpecificAttribute`). -/
structure VendorSpecific where
  id : Nat
  name : String
  vendorId : Nat
  value : VsaValue
  raw : String
deriving DecidableEq

/-- The sub-attribute walk of `decodeVendorSpecific`: walk
`{type:u8, length:u8, value}` tuples; `none` models `parsable = false`. -/
def vsaWalk (data : List Nat) (offset : Nat) : Option (List SubAttr) :=
  if offset < data.length then
    if h2 : offset + 2 > data.length then none
    else
      let t := data.getD offset 0
      let l := data.getD (offset + 1) 0
      if h3 : l < 2 ∨ offset + l > data.length then none
      else
        match vsaWalk data (offset + l) with
        | some rest => some (⟨t, toHex (jsSlice data (offset + 2) (offset + l))⟩ :: rest)
        | none => none
  else some []
termination_by data.length - offset
decreasing_by push_neg at h3; omega

/-- The `decodeVendorSpecific` function from helpers.ts. -/
def decodeVendorSpecific (value : List Nat) : VendorSpecific :=
  if value.length < 4 then
    ⟨26, ("Vendor-Specific"), 0, .hex (toHex value), toHex value⟩
  else
    let vendorId := readU32BE value
    let data := value.drop 4
    match vsaWalk data 0 with
    | some subAttrs =>
      if subAttrs.length > 0 then ⟨26, ("Vendor-Specific"), vendorId, .subs subAttrs, toHex value⟩
      else ⟨26, ("Vendor-Specific"), vendorId, .hex (toHex data), toHex value⟩
    | none => ⟨26, ("Vendor-Specific"), vendorId, .hex (toHex data), toHex value⟩

/-- A parsed RADIUS attribute (`ParsedRadiusAttribute`): either a standard
attribute or a Vendor-Specific one. -/
inductive ParsedAttr where
  | std (id : Nat) (name : String) (value : AttrValue) (raw : String)
  | vsa (v : VendorSpecific)
deriving DecidableEq

/-- The per-type dispatch of `decodeAttribute` (its `switch`; none of the
decoders can throw in the embedding, so the surrounding `try` is the
identity). -/
def decodeByType : AttrType → List Nat → AttrValue
  | .string, v => decodeString v
  | .integer, v => decodeInteger v
  | .integer64, v => decodeInteger64 v
  | .date, v => decodeDate v
  | .ipaddr, v => decodeIpAddr v
  | .ipv6addr, v => decodeIpv6Addr v
  | .ipv6pfx, v => decodeIpv6Pfx v
  | .ifid, v => decodeIfId v

/-- The `decodeAttribute` function from helpers.ts, parameterized by the dictionary. -/
def decodeAttribute (dict : Nat → Option AttrDef) (id : Nat) (value : List Nat) :
    ParsedAttr :=
  if id = 26 then .vsa (decodeVendorSpecific value)
  else
    match dict id with
    | none => .std id ("Unknown-Attribute-" ++ Nat.repr id) (.hex (toHex value)) (toHex value)
    | some d => .std id d.name (decodeByType d.type value) (toHex value)

/-! ## protocol.ts: PAP password obfuscation (request side) -/

/-- Byte-wise XOR of two lists (pairs beyond the shorter list are dropped; in
the source both operands always have 16 bytes). -/
def xorBytes (a b : List Nat) : List Nat := List.zipWith (fun x y => Nat.xor x y) a b

/-- Split a byte list into 16-byte chunks. -/
def chunks16 : List Nat → List (List Nat)
  | [] => []
  | a :: l => ((a :: l).take 16) :: chunks16 ((a :: l).drop 16)
termination_by l => l.length
decreasing_by simp [List.length_drop]; omega

/-- The block-chaining loop of the User-Password construction: each plaintext
block is XORed with `MD5(secret ‖ prev)` and the ciphertext becomes the next
`prev`. -/
def papBlocks (secret : List Nat) (prev : List Nat) : List (List Nat) → List (List Nat)
  | [] => []
  | p :: ps =>
    let c := xorBytes p (md5 (secret ++ prev))
    c :: papBlocks secret c ps

/-- JS `Math.ceil(len / 16) || 1`: the number of 16-byte password blocks. -/
def papBlockCount (pwdLen : Nat) : Nat :=
  if pwdLen = 0 then 1 else (pwdLen + 15) / 16

/-- The User-Password attribute value built by `radiusAuthenticate`
(protocol.ts lines 37-52): zero-pad the password to `papBlockCount` blocks and
chain-encrypt them starting from the request authenticator. -/
def papEncrypt (secret auth pwd : List Nat) : List Nat :=
  let padded := pwd ++ List.replicate (papBlockCount pwd.length * 16 - pwd.length) 0
  (papBlocks secret auth (chunks16 padded)).flatten

/-- The ciphertext blocks exactly as the spec words them: `b₀ = MD5(secret ‖
request-authenticator)`, `bᵢ = MD5(secret ‖ Cᵢ₋₁)` for `i > 0`, and
`Cᵢ = Pᵢ XOR bᵢ` where `Pᵢ` is the i-th padded plaintext block. -/
def specC (secret auth padded : List Nat) : Nat → List Nat
  | 0 => xorBytes (padded.take 16) (md5 (secret ++ auth))
  | i + 1 => xorBytes ((padded.drop (16 * (i + 1))).take 16)
      (md5 (secret ++ specC secret auth padded i))

/-! ## protocol.ts: response handling -/

/-- The protocol-layer options relevant to response handling
(`RadiusProtocolOptions` without transport fields). -/
structure ProtoOptions where
  assignmentAttributeId : Option Nat
  vendorId : Option Nat
  vendorType : Option Nat
  valuePattern : Option String
deriving DecidableEq

/-- The protocol outcome record (`RadiusResult`). `classVal` is the `class`
field; strings extracted from packets are byte lists per the conventions. -/
structure RadiusOutcome where
  ok : Bool
  classVal : Option (List Nat)
  attributes : Option (List ParsedAttr)
  raw : Option String
  error : Option String
deriving DecidableEq

/-- The attribute walk of the response parser (protocol.ts lines 123-137):
from an offset, read `t = byte[off]`, `l = byte[off+1]` while at least two
bytes remain, stop when `l < 2` or the attribute would run past the datagram
end, and collect `(t, value)` pairs. The `fuel` argument makes the recursion
structural so the kernel can evaluate it; every iteration advances the offset
by `l ≥ 2`, so `fuel = msg.length + 1 - offset` always suffices (see
`attrWalk_unfold`). -/
def attrWalkGo (msg : List Nat) : Nat → Nat → List (Nat × List Nat)
  | 0, _ => []
  | fuel + 1, offset =>
    if offset + 2 ≤ msg.length then
      if msg.getD (offset + 1) 0 < 2 then []
      else if offset + msg.getD (offset + 1) 0 > msg.length then []
      else (msg.getD offset 0, jsSlice msg (offset + 2) (offset + msg.getD (offset + 1) 0)) ::
        attrWalkGo msg fuel (offset + msg.getD (offset + 1) 0)
    else []

/-- The attribute walk of the response parser starting at `offset`. -/
def attrWalk (msg : List Nat) (offset : Nat) : List (Nat × List Nat) :=
  attrWalkGo msg (msg.length + 1 - offset) offset

/-- JS `options.assignmentAttributeId || 25` with JS falsiness (0 is falsy). -/
def targetAttributeId (opts : ProtoOptions) : Nat :=
  match opts.assignmentAttributeId with
  | some n => if n = 0 then 25 else n
  | none => 25

/-- The per-attribute assignment-extraction logic (protocol.ts lines 149-198).
Returns `some extractedValue` exactly when the source sets
`isTargetAttribute = true` with a defined `extractedValue`.
`matchFn pattern s` models `s.match(new RegExp(pattern))` and yields capture
group 1; a match only counts when the group is truthy (non-empty). -/
def extractTarget (matchFn : String → List Nat → Option (List Nat))
    (opts : ProtoOptions) (t : Nat) (value : List Nat) : Option (List Nat) :=
  if t = targetAttributeId opts then
    if t = 26 ∧ opts.vendorId ≠ none ∧ opts.vendorType ≠ none then
      if value.length ≥ 6 then
        let vendorId := readU32BE value
        let vendorType := value.getD 4 0
        let vendorLength := value.getD 5 0
        if some vendorId = opts.vendorId ∧ some vendorType = opts.vendorType then
          let vendorValue := jsSlice value 6 (6 + vendorLength - 2)
          match opts.valuePattern with
          | some p =>
            match matchFn p vendorValue with
            | some c => if c.isEmpty then none else some c
            | none => none
          | none => some vendorValue
        else none
      else none
    else
      match opts.valuePattern with
      | some p =>
        match matchFn p value with
        | some c => if c.isEmpty then none else some c
        | none => none
      | none => some value
  else none

/-- JS truthiness of the `foundClass` variable: set and non-empty. -/
def foundTruthy : Option (List Nat) → Bool
  | some v => !v.isEmpty
  | none => false

/-- The `foundClass` accumulation over the walked attributes: the source runs
`if (!foundClass) foundClass = extractedValue` for every match. -/
def foundClassOf (matchFn : String → List Nat → Option (List Nat))
    (opts : ProtoOptions) (walked : List (Nat × List Nat)) : Option (List Nat) :=
  walked.foldl
    (fun acc a =>
      match extractTarget matchFn opts a.1 a.2 with
      | some v => if foundTruthy acc then acc else some v
      | none => acc)
    none

/-- The classification stage of the response handler (protocol.ts lines
116-228): runs after the authenticator check, branches on the code, walks and
decodes attributes for codes 2/3/11, and builds the outcome record. -/
def classifyStage (dict : Nat → Option AttrDef)
    (matchFn : String → List Nat → Option (List Nat)) (opts : ProtoOptions)
    (msg : List Nat) : RadiusOutcome :=
  let code := msg.getD 0 0
  if code = 2 ∨ code = 3 ∨ code = 11 then
    let walked := attrWalk msg 20
    ⟨decide (code = 2),
     foundClassOf matchFn opts walked,
     some (walked.map (fun a => decodeAttribute dict a.1 a.2)),
     some (toHex msg),
     if code = 2 then none
     else if code = 3 then some ("access_reject")
     else if code = 11 then some ("access_challenge")
     else some ("unknown_code")⟩
  else ⟨false, none, none, some (toHex msg), some ("unknown_code")⟩

/-- The byte string hashed by the response-authenticator check:
`code ‖ identifier ‖ length-as-big-endian-u16 ‖ request-authenticator ‖
attributes ‖ secret`. -/
def verifyInput (secret reqAuth msg : List Nat) : List Nat :=
  [msg.getD 0 0, msg.getD 1 0, msg.length / 256 % 256, msg.length % 256] ++
    reqAuth ++ msg.drop 20 ++ secret

/-- The complete datagram handler of `radiusAuthenticate` (protocol.ts lines
78-228). `hashThrows` models an exception inside the verification `try` block
(the source logs it and continues parsing); `msg.length ≥ 65536` would also
throw there (`writeUInt16BE` range check), though UDP datagrams cannot reach
that size. -/
def processDatagram (dict : Nat → Option AttrDef)
    (matchFn : String → List Nat → Option (List Nat)) (opts : ProtoOptions)
    (secret reqAuth : List Nat) (hashThrows : Bool) (msg : List Nat) :
    RadiusOutcome :=
  if msg.length < 20 then
    ⟨false, none, none, some (toHex msg), some ("malformed_response")⟩
  else if ¬hashThrows ∧ msg.length < 65536 ∧
      md5 (verifyInput secret reqAuth msg) ≠ jsSlice msg 4 20 then
    ⟨false, none, none, some (toHex msg), some ("authenticator_mismatch")⟩
  else classifyStage dict matchFn opts msg

/-- How one protocol transaction can complete with a resolved result: either
the timer fired first, or a datagram arrived (socket errors reject the promise
and produce no result). -/
inductive TxOutcome where
  | timedOut
  | received (msg : List Nat) (hashThrows : Bool)

/-- The resolved `RadiusResult` of one transaction: the timeout callback
resolves `{ok:false, error:"timeout"}`; a datagram goes through
`processDatagram`. -/
def txResult (dict : Nat → Option AttrDef)
    (matchFn : String → List Nat → Option (List Nat)) (opts : ProtoOptions)
    (secret reqAuth : List Nat) : TxOutcome → RadiusOutcome
  | .timedOut => ⟨false, none, none, none, some ("timeout")⟩
  | .received msg hashThrows =>
    processDatagram dict matchFn opts secret reqAuth hashThrows msg

/-! ## client.ts: host health and failover -/

/-- One host-health record (`HostHealth` without the redundant `host` key). -/
structure HostHealth where
  lastOkAt : Option Nat
  lastTriedAt : Option Nat
  consecutiveFailures : Nat
deriving DecidableEq

/-- How one probe's protocol call can end: a resolved result or a transport
fault (rejected promise, caught by `probeHost`). -/
inductive ProbeOutcome where
  | response (r : RadiusOutcome)
  | fault

/-- The health-table update of `RadiusClient.probeHost` (client.ts lines
180-226): `lastTriedAt` is always stamped; `ok` or any error other than
`timeout`/`malformed_response` marks the host alive (reset failures, stamp
`lastOkAt`, return true); `timeout`/`malformed_response`/transport faults mark
it dead (increment failures, return false). -/
def probeUpdate (h : HostHealth) (now : Nat) : ProbeOutcome → HostHealth × Bool
  | .response r =>
    let alive : HostHealth := { h with lastTriedAt := some now, lastOkAt := some now, consecutiveFailures := 0 }
    let dead : HostHealth := { h with lastTriedAt := some now, consecutiveFailures := h.consecutiveFailures + 1 }
    if r.ok then (alive, true)
    else if r.error = some ("timeout") ∨ r.error = some ("malformed_response") then (dead, false)
    else (alive, true)
  | .fault =>
    ({ h with lastTriedAt := some now, consecutiveFailures := h.consecutiveFailures + 1 }, false)

/-- The client-side state relevant to host selection. `configHost` is the
immutable `config.host`; the pool and the guard live here; the health table is
updated only through `probeUpdate` and does not influence host selection. -/
structure ClientState where
  hosts : List String
  activeHost : Option String
  inProgress : Bool
  configHost : String
deriving DecidableEq

/-- The host pool built by `reloadHostsFromConfig`: `config.hosts` when
non-empty, else `[config.host]`, filtered of empty strings (`filter(Boolean)`). -/
def buildPool (cfgHosts : Option (List String)) (cfgHost : String) : List String :=
  (match cfgHosts with
   | some l => if l.length > 0 then l else [cfgHost]
   | none => [cfgHost]).filter (fun s => s ≠ "")

/-- JS `Array.prototype.indexOf`: index of the first occurrence or -1. -/
def jsIndexOf (l : List String) (x : String) : Int :=
  match l.findIdx? (fun h => h = x) with
  | some i => (i : Int)
  | none => -1

/-- Embeds `RadiusClient.getActiveHost` (client.ts lines 97-101): the active host if
set, else `hosts[0] || config.host` with JS falsiness ("" is falsy). -/
def getActiveHost (st : ClientState) : String :=
  match st.activeHost with
  | some h => h
  | none =>
    match st.hosts with
    | [] => st.configHost
    | h :: _ => if h = "" then st.configHost else h

/-- The probe loop inside `failover()`: iterate, skip the current active host,
stop at the first host whose probe succeeds. -/
def failoverLoop (active : Option String) (probe : String → Bool) :
    List String → Option String
  | [] => none
  | h :: t =>
    if some h = active then failoverLoop active probe t
    else if probe h then some h else failoverLoop active probe t

/-- Embeds `RadiusClient.failover` (client.ts lines 156-178), with the probe sequence
modelled atomically (single-threaded; the `inProgress` guard is set on entry
and reset in `finally`, so the final state carries the original value).
`probe h` is the outcome `probeHost(h)` would return. -/
def failover (st : ClientState) (probe : String → Bool) :
    ClientState × Option String :=
  if st.inProgress then (st, none)
  else
    let startIndex : Nat :=
      match st.activeHost with
      | some a => (jsIndexOf st.hosts a + 1).toNat
      | none => 0
    let ordered := st.hosts.drop startIndex ++ st.hosts.take startIndex
    match failoverLoop st.activeHost probe ordered with
    | some h => ({ st with activeHost := some h }, some h)
    | none => ({ st with activeHost := none }, none)

/-- The first host in a list whose probe succeeds (the loop shared by
`fastFailoverSequence` and the no-active branch of `backgroundHealthCycle`). -/
def findFirstAlive (probe : String → Bool) : List String → Option String
  | [] => none
  | h :: t => if probe h then some h else findFirstAlive probe t

/-- Embeds `RadiusClient.fastFailoverSequence` (client.ts lines 103-119), modelled
atomically: guarded by `inProgress`, probes the pool in priority order and
promotes the first responsive host. -/
def fastFailoverSeq (st : ClientState) (probe : String → Bool) :
    ClientState × Option String :=
  if st.inProgress then (st, st.activeHost)
  else
    match findFirstAlive probe st.hosts with
    | some h => ({ st with activeHost := some h }, some h)
    | none => (st, none)

/-- Embeds `RadiusClient.backgroundHealthCycle` (client.ts lines 136-154): probe the
active host and fail over when it is down, or promote the first responsive
pool member when no host is active. -/
def backgroundHealthCycle (st : ClientState) (probe : String → Bool) : ClientState :=
  match st.activeHost with
  | some h => if probe h then st else (failover st probe).1
  | none =>
    match findFirstAlive probe st.hosts with
    | some h => { st with activeHost := some h }
    | none => st

/-- Embeds `RadiusClient.onAuthTimeout` (client.ts lines 229-237): probe the active
host and fail over when dead, else run the health-cycle path. -/
def onAuthTimeout (st : ClientState) (probe : String → Bool) : ClientState :=
  match st.activeHost with
  | some h => if probe h then st else (failover st probe).1
  | none => backgroundHealthCycle st probe

/-- The reachable client states: the constructed state (pool from config,
no active host) and everything the controller's operations can produce.
Each step may observe arbitrary probe outcomes. -/
inductive Reachable : ClientState → Prop where
  | init (cfgHosts : Option (List String)) (cfgHost : String) :
      Reachable ⟨buildPool cfgHosts cfgHost, none, false, cfgHost⟩
  | failoverStep (st : ClientState) (probe : String → Bool) :
      Reachable st → Reachable (failover st probe).1
  | fastSeqStep (st : ClientState) (probe : String → Bool) :
      Reachable st → Reachable (fastFailoverSeq st probe).1
  | healthCycleStep (st : ClientState) (probe : String → Bool) :
      Reachable st → Reachable (backgroundHealthCycle st probe)
  | authTimeoutStep (st : ClientState) (probe : String → Bool) :
      Reachable st → Reachable (onAuthTimeout st probe)

/-! ## Wire encodings used to state round-trip properties -/

/-- The wire encoding of one attribute (or Vendor-Specific sub-attribute):
`{type:u8, total_length:u8, value}` with `total_length = value-length + 2`. -/
def encodeAttr (a : Nat × List Nat) : List Nat := a.1 :: (a.2.length + 2) :: a.2

/-- The wire encoding of an attribute sequence. -/
def encodeAttrs (l : List (Nat × List Nat)) : List Nat := (l.map encodeAttr).flatten

/-- The decoded form of an encoded sub-attribute: value as hex. -/
def hexSub (a : Nat × List Nat) : SubAttr := ⟨a.1, toHex a.2⟩

/-- The three stop conditions of the response attribute walk: fewer than two
bytes remain, the length byte is below 2, or the attribute runs past the
datagram end. -/
def stopCond (msg : List Nat) (offset : Nat) : Prop :=
  msg.length < offset + 2 ∨ msg.getD (offset + 1) 0 < 2 ∨
    msg.length < offset + msg.getD (offset + 1) 0

instance stopCondDec (msg : List Nat) (offset : Nat) : Decidable (stopCond msg offset) := by
  unfold stopCond
  exact inferInstance

/-- The pool invariant maintained by the failover controller: no empty host
identifier in the pool, and the active host (when set) is a pool member. -/
def PoolInv (st : ClientState) : Prop :=
  ("" ∉ st.hosts) ∧ ∀ a, st.activeHost = some a → a ∈ st.hosts

/-- The starting index of the `failover()` rotation: one past the current
active host (`indexOf` returns -1 when absent, so the start wraps to 0). -/
def failoverStart (st : ClientState) : Nat :=
  match st.activeHost with
  | some a => (jsIndexOf st.hosts a + 1).toNat
  | none => 0

/-! ## Shared concrete instances used by witnesses -/

/-- An empty attribute dictionary (unknown ids only). -/
def dict0 : Nat → Option AttrDef := fun _ => none

/-- A regex collaborator that never matches (irrelevant when no
`valuePattern` is configured). -/
def match0 : String → List Nat → Option (List Nat) := fun _ _ => none

/-- Default protocol options: no assignment overrides. -/
def opts0 : ProtoOptions := ⟨none, none, none, none⟩

/-- The request authenticator used by the concrete C10 witness packet. -/
def c10auth : List Nat := List.replicate 16 0

/-- The (correct) response authenticator of the C10 witness packet. -/
def c10digest : List Nat := md5 ([0, 0, 0, 20] ++ c10auth ++ [115])

/-- A 20-byte datagram with code 0 and a valid response authenticator for
secret "s" (byte 115) and a zero request authenticator. -/
def c10msg : List Nat := [0, 0, 0, 20] ++ c10digest

/-- The request authenticator used by the concrete C1 packet. -/
def c1auth : List Nat := List.replicate 16 0

/-- The attribute bytes of the C1 packet: a Class attribute (type 25) with an
empty value, then a Class attribute with value "x" (0x78). -/
def c1attrs : List Nat := [25, 2, 25, 3, 120]

/-- The correct response authenticator of the C1 packet for secret "s". -/
def c1digest : List Nat := md5 ([2, 0, 0, 25] ++ c1auth ++ c1attrs ++ [115])

/-- A verified Access-Accept carrying two Class attributes, the first with an
empty value and the second with value "x". -/
def c1msg : List Nat := [2, 0, 0, 25] ++ c1digest ++ c1attrs

/-- A 20-byte datagram with code 2 whose response authenticator (sixteen
1-bytes) does not verify. -/
def c7msg : List Nat := [2, 0, 0, 20] ++ List.replicate 16 1

/-! ## Basic computation lemmas -/

/-- The MD5 digest always has 16 bytes. -/
theorem md5_length (msg : List Nat) : (md5 msg).length = 16 := by
  unfold md5
  rcases (chunks64 (md5Pad msg)).foldl md5Chunk
      (1732584193, 4023233417, 2562383102, 271733878) with ⟨a, b, c, d⟩
  simp [u32le]

theorem attrWalkGo_fuel (msg : List Nat) :
    ∀ (f g offset : Nat), msg.length ≤ offset + f → msg.length ≤ offset + g →
      attrWalkGo msg f offset = attrWalkGo msg g offset := by
  intro f
  induction f with
  | zero =>
    intro g offset hf hg
    rcases g with _ | g
    · rfl
    · rw [attrWalkGo, attrWalkGo]
      rw [if_neg (by omega)]
  | succ k ih =>
    intro g offset hf hg
    rcases g with _ | g
    · rw [attrWalkGo, attrWalkGo]
      rw [if_neg (by omega)]
    · rw [attrWalkGo, attrWalkGo]
      by_cases h1 : offset + 2 ≤ msg.length
      · rw [if_pos h1, if_pos h1]
        by_cases h2 : msg.getD (offset + 1) 0 < 2
        · rw [if_pos h2, if_pos h2]
        · rw [if_neg h2, if_neg h2]
          by_cases h3 : offset + msg.getD (offset + 1) 0 > msg.length
          · rw [if_pos h3, if_pos h3]
          · rw [if_neg h3, if_neg h3]
            rw [ih g (offset + msg.getD (offset + 1) 0) (by omega) (by omega)]
      · rw [if_neg h1, if_neg h1]

/-- The one-step unfolding of the attribute walk, independent of fuel. -/
theorem attrWalk_unfold (msg : List Nat) (offset : Nat) :
    attrWalk msg offset =
      if offset + 2 ≤ msg.length then
        if msg.getD (offset + 1) 0 < 2 then []
        else if offset + msg.getD (offset + 1) 0 > msg.length then []
        else (msg.getD offset 0,
            jsSlice msg (offset + 2) (offset + msg.getD (offset + 1) 0)) ::
          attrWalk msg (offset + msg.getD (offset + 1) 0)
      else []:= by
  unfold attrWalk
  rcases hf : msg.length + 1 - offset with _ | f
  · rw [attrWalkGo]
    rw [if_neg (by omega)]
  · rw [attrWalkGo]
    by_cases h1 : offset + 2 ≤ msg.length
    · rw [if_pos h1, if_pos h1]
      by_cases h2 : msg.getD (offset + 1) 0 < 2
      · rw [if_pos h2, if_pos h2]
      · rw [if_neg h2, if_neg h2]
        by_cases h3 : offset + msg.getD (offset + 1) 0 > msg.length
        · rw [if_pos h3, if_pos h3]
        · rw [if_neg h3, if_neg h3]
          rw [attrWalkGo_fuel msg f (msg.length + 1 - (offset + msg.getD (offset + 1) 0))
            (offset + msg.getD (offset + 1) 0) (by omega) (by omega)]
    · rw [if_neg h1, if_neg h1]

/-! ## List surgery lemmas -/

theorem getD_append_offset (pre rest : List Nat) (k : Nat) :
    (pre ++ rest).getD (pre.length + k) 0 = rest.getD k 0 := by
  rw [List.getD_append_right pre rest 0 (pre.length + k) (by omega)]
  congr 1
  omega

theorem jsSlice_middle (pre mid post : List Nat) :
    jsSlice (pre ++ mid ++ post) pre.length (pre.length + mid.length) = mid := by
  have h : pre ++ mid ++ post = (pre ++ mid) ++ post := by
    simp [List.append_assoc]
  rw [jsSlice, h, List.take_append_eq_append_take]
  rw [List.take_of_length_le (by simp), show pre.length + mid.length - (pre ++ mid).length = 0 by
    simp]
  simp [List.drop_left]

theorem jsSlice_length (l : List Nat) (s e : Nat) (he : e ≤ l.length) :
    (jsSlice l s e).length = e - s := by
  simp [jsSlice]
  omega

/-! ## PAP encryption lemmas -/

theorem xorBytes_length (a b : List Nat) :
    (xorBytes a b).length = min a.length b.length := by
  simp [xorBytes]

theorem chunks16_nil : chunks16 [] = [] := by rw [chunks16]

theorem chunks16_cons (a : Nat) (l : List Nat) :
    chunks16 (a :: l) = ((a :: l).take 16) :: chunks16 ((a :: l).drop 16) := by
  rw [chunks16]

theorem chunks16_spec :
    ∀ (n : Nat) (l : List Nat), l.length = 16 * n →
      (∀ c ∈ chunks16 l, c.length = 16) ∧ (chunks16 l).length = n := by
  intro n
  induction n with
  | zero =>
    intro l hl
    have : l = [] := List.eq_nil_of_length_eq_zero (by omega)
    subst this
    simp [chunks16_nil]
  | succ k ih =>
    intro l hl
    rcases l with _ | ⟨a, t⟩
    · simp at hl
    · rw [chunks16_cons]
      have hrest : ((a :: t).drop 16).length = 16 * k := by
        simp only [List.length_drop, List.length_cons]
        simp only [List.length_cons] at hl
        omega
      obtain ⟨ih1, ih2⟩ := ih _ hrest
      refine ⟨?_, by simp only [List.length_cons, ih2]⟩
      intro c hc
      rcases List.mem_cons.1 hc with hc | hc
      · subst hc
        simp only [List.length_take, List.length_cons]
        simp only [List.length_cons] at hl
        omega
      · exact ih1 c hc

theorem papBlocks_count (secret : List Nat) :
    ∀ (bs : List (List Nat)) (auth : List Nat),
      (papBlocks secret auth bs).length = bs.length := by
  intro bs
  induction bs with
  | nil => intro auth; simp [papBlocks]
  | cons p ps ih => intro auth; simp [papBlocks, ih]

theorem papBlocks_sixteen (secret : List Nat) :
    ∀ (bs : List (List Nat)) (auth : List Nat), (∀ b ∈ bs, b.length = 16) →
      ∀ c ∈ papBlocks secret auth bs, c.length = 16 := by
  intro bs
  induction bs with
  | nil => intro auth _ c hc; simp [papBlocks] at hc
  | cons p ps ih =>
    intro auth hb c hc
    simp only [papBlocks] at hc
    rcases List.mem_cons.1 hc with hc | hc
    · subst hc
      rw [xorBytes_length, md5_length, hb p (List.mem_cons_self _ _)]
      simp
    · exact ih _ (fun b h => hb b (List.mem_cons_of_mem _ h)) c hc

theorem flatten_length_16 :
    ∀ cs : List (List Nat), (∀ c ∈ cs, c.length = 16) →
      cs.flatten.length = 16 * cs.length := by
  intro cs
  induction cs with
  | nil => intro _; simp
  | cons c t ih =>
    intro hc
    simp only [List.flatten_cons, List.length_append, List.length_cons,
      hc c (List.mem_cons_self _ _), ih (fun b h => hc b (List.mem_cons_of_mem _ h))]
    ring

theorem specC_shift (secret auth padded : List Nat) :
    ∀ i, specC secret auth padded (i + 1) =
      specC secret (specC secret auth padded 0) (padded.drop 16) i := by
  intro i
  induction i with
  | zero =>
    show xorBytes ((padded.drop (16 * 1)).take 16) _ = _
    norm_num [specC]
  | succ k ih =>
    show xorBytes ((padded.drop (16 * (k + 1 + 1))).take 16)
        (md5 (secret ++ specC secret auth padded (k + 1))) =
      xorBytes (((padded.drop 16).drop (16 * (k + 1))).take 16)
        (md5 (secret ++ specC secret (specC secret auth padded 0) (padded.drop 16) k))
    rw [ih, List.drop_drop]
    have h1 : 16 + 16 * (k + 1) = 16 * (k + 1 + 1) := by ring
    rw [h1]

theorem papBlocks_chunks (secret : List Nat) :
    ∀ (n : Nat) (auth padded : List Nat), padded.length = 16 * n →
      papBlocks secret auth (chunks16 padded) =
        (List.range n).map (specC secret auth padded) := by
  intro n
  induction n with
  | zero =>
    intro auth padded hl
    have : padded = [] := List.eq_nil_of_length_eq_zero (by omega)
    subst this
    simp [chunks16_nil, papBlocks]
  | succ k ih =>
    intro auth padded hl
    rcases padded with _ | ⟨a, t⟩
    · simp at hl
    · rw [chunks16_cons]
      simp only [papBlocks]
      rw [ih (xorBytes ((a :: t).take 16) (md5 (secret ++ auth))) ((a :: t).drop 16)
        (by simp only [List.length_drop, List.length_cons]
            simp only [List.length_cons] at hl
            omega)]
      rw [List.range_succ_eq_map, List.map_cons, List.map_map]
      refine congrArg₂ _ rfl ?_
      refine List.map_congr_left ?_
      intro i _
      exact (specC_shift secret auth (a :: t) i).symm

/-! ## Attribute-walk lemmas -/

theorem attrWalk_stop (msg : List Nat) (off : Nat) (h : stopCond msg off) :
    attrWalk msg off = [] := by
  rw [attrWalk_unfold]
  rcases h with h | h | h
  · rw [if_neg (by omega)]
  · by_cases h2 : off + 2 ≤ msg.length
    · rw [if_pos h2, if_pos h]
    · rw [if_neg h2]
  · by_cases h2 : off + 2 ≤ msg.length
    · by_cases hl : msg.getD (off + 1) 0 < 2
      · rw [if_pos h2, if_pos hl]
      · rw [if_pos h2, if_neg hl,
          if_pos (by omega : off + msg.getD (off + 1) 0 > msg.length)]
    · rw [if_neg h2]

theorem attrWalk_append (attrs : List (Nat × List Nat)) :
    ∀ (pre tail : List Nat),
      attrWalk (pre ++ encodeAttrs attrs ++ tail) pre.length =
        attrs ++ attrWalk (pre ++ encodeAttrs attrs ++ tail)
          (pre.length + (encodeAttrs attrs).length) := by
  induction attrs with
  | nil => intro pre tail; simp [encodeAttrs]
  | cons a rest ih =>
    obtain ⟨t, v⟩ := a
    intro pre tail
    have hM : pre ++ encodeAttrs ((t, v) :: rest) ++ tail =
        (pre ++ encodeAttr (t, v)) ++ encodeAttrs rest ++ tail := by
      simp [encodeAttrs, encodeAttr]
    rw [hM]
    set M := (pre ++ encodeAttr (t, v)) ++ encodeAttrs rest ++ tail with hMdef
    have hlenM : M.length =
        pre.length + (v.length + 2) + ((encodeAttrs rest).length + tail.length) := by
      simp [hMdef, encodeAttr]
      ring
    have hT : M.getD pre.length 0 = t := by
      have : M = pre ++ (encodeAttr (t, v) ++ (encodeAttrs rest ++ tail)) := by
        simp [hMdef, List.append_assoc]
      rw [this, show pre.length = pre.length + 0 by rfl, getD_append_offset]
      rfl
    have hL : M.getD (pre.length + 1) 0 = v.length + 2 := by
      have : M = pre ++ (encodeAttr (t, v) ++ (encodeAttrs rest ++ tail)) := by
        simp [hMdef, List.append_assoc]
      rw [this, getD_append_offset]
      rfl
    have hslice : jsSlice M (pre.length + 2) (pre.length + (v.length + 2)) = v := by
      have h1 : M = (pre ++ [t, v.length + 2]) ++ v ++ (encodeAttrs rest ++ tail) := by
        simp [hMdef, encodeAttr]
      have h2 : pre.length + 2 = (pre ++ [t, v.length + 2]).length := by simp
      have h3 : pre.length + (v.length + 2) =
          (pre ++ [t, v.length + 2]).length + v.length := by simp; ring
      rw [h1, h2, h3, jsSlice_middle]
    rw [attrWalk_unfold]
    rw [if_pos (by omega : pre.length + 2 ≤ M.length)]
    simp only [hT, hL]
    rw [if_neg (by omega : ¬(v.length + 2 < 2)),
      if_neg (by omega : ¬(pre.length + (v.length + 2) > M.length)), hslice]
    have hoff : pre.length + (v.length + 2) = (pre ++ encodeAttr (t, v)).length := by
      simp [encodeAttr]
    have htot : pre.length + (encodeAttrs ((t, v) :: rest)).length =
        (pre ++ encodeAttr (t, v)).length + (encodeAttrs rest).length := by
      simp [encodeAttrs, encodeAttr]
      ring
    rw [hoff, htot, ih (pre ++ encodeAttr (t, v)) tail]
    rw [hMdef]
    simp only [List.append_assoc, List.cons_append]

/-! ## Vendor-Specific walk lemmas -/

theorem drop_decompose (data : List Nat) (off l : Nat) (h2 : off + 2 ≤ data.length)
    (hl : 2 ≤ l) (hle : off + l ≤ data.length) :
    data.drop off = data.getD off 0 :: data.getD (off + 1) 0 ::
      (jsSlice data (off + 2) (off + l) ++ data.drop (off + l)) := by
  have ha : data.drop off = data.getD off 0 :: data.drop (off + 1) := by
    rw [List.drop_eq_getElem_cons (by omega : off < data.length),
      List.getD_eq_getElem data 0 (by omega)]
  have hb : data.drop (off + 1) = data.getD (off + 1) 0 :: data.drop (off + 2) := by
    rw [List.drop_eq_getElem_cons (by omega : off + 1 < data.length),
      List.getD_eq_getElem data 0 (by omega)]
  have hdd : (data.drop (off + 2)).drop (off + l - (off + 2)) = data.drop (off + l) := by
    rw [List.drop_drop]
    congr 1
    omega
  have hc : data.drop (off + 2) = jsSlice data (off + 2) (off + l) ++ data.drop (off + l) := by
    calc data.drop (off + 2)
        = (data.drop (off + 2)).take (off + l - (off + 2)) ++
            (data.drop (off + 2)).drop (off + l - (off + 2)) :=
          (List.take_append_drop _ _).symm
      _ = jsSlice data (off + 2) (off + l) ++ data.drop (off + l) := by
          rw [hdd, jsSlice, List.drop_take]
  rw [ha, hb, hc]

theorem vsaWalk_encode (subs : List (Nat × List Nat)) :
    ∀ pre : List Nat, vsaWalk (pre ++ encodeAttrs subs) pre.length = some (subs.map hexSub) := by
  induction subs with
  | nil =>
    intro pre
    rw [vsaWalk]
    rw [if_neg (by simp [encodeAttrs])]
    rfl
  | cons a rest ih =>
    obtain ⟨t, v⟩ := a
    intro pre
    have hM : pre ++ encodeAttrs ((t, v) :: rest) ++ ([] : List Nat) =
        (pre ++ encodeAttr (t, v)) ++ encodeAttrs rest ++ ([] : List Nat) := by
      simp [encodeAttrs, encodeAttr]
    simp only [List.append_nil] at hM
    rw [hM]
    set M := (pre ++ encodeAttr (t, v)) ++ encodeAttrs rest with hMdef
    have hlenM : M.length = pre.length + (v.length + 2) + (encodeAttrs rest).length := by
      simp [hMdef, encodeAttr]
      ring
    have hT : M.getD pre.length 0 = t := by
      rw [hMdef, List.append_assoc, show pre.length = pre.length + 0 by rfl, getD_append_offset]
      rfl
    have hL : M.getD (pre.length + 1) 0 = v.length + 2 := by
      rw [hMdef, List.append_assoc, getD_append_offset]
      rfl
    have hslice : jsSlice M (pre.length + 2) (pre.length + (v.length + 2)) = v := by
      have h1 : M = (pre ++ [t, v.length + 2]) ++ v ++ encodeAttrs rest := by
        simp [hMdef, encodeAttr]
      have h2 : pre.length + 2 = (pre ++ [t, v.length + 2]).length := by simp
      have h3 : pre.length + (v.length + 2) =
          (pre ++ [t, v.length + 2]).length + v.length := by simp; ring
      rw [h1, h2, h3, jsSlice_middle]
    rw [vsaWalk]
    rw [if_pos (by omega : pre.length < M.length)]
    rw [dif_neg (by omega : ¬(pre.length + 2 > M.length))]
    simp only [hT, hL]
    rw [dif_neg (by omega : ¬(v.length + 2 < 2 ∨ pre.length + (v.length + 2) > M.length))]
    have hoff : pre.length + (v.length + 2) = (pre ++ encodeAttr (t, v)).length := by
      simp [encodeAttr]
    rw [hslice, hoff, hMdef, ih (pre ++ encodeAttr (t, v))]
    simp [hexSub]

theorem vsaWalk_sound :
    ∀ (fuel : Nat) (data : List Nat) (off : Nat) (subs : List SubAttr),
      data.length - off ≤ fuel → vsaWalk data off = some subs →
      ∃ raws : List (Nat × List Nat),
        data.drop off = encodeAttrs raws ∧ subs = raws.map hexSub := by
  intro fuel
  induction fuel with
  | zero =>
    intro data off subs hf hw
    rw [vsaWalk, if_neg (by omega : ¬off < data.length)] at hw
    refine ⟨[], ?_, ?_⟩
    · rw [List.drop_eq_nil_of_le (by omega)]; rfl
    · simpa [encodeAttrs] using (Option.some_inj.1 hw).symm
  | succ k ih =>
    intro data off subs hf hw
    rw [vsaWalk] at hw
    by_cases h1 : off < data.length
    · rw [if_pos h1] at hw
      by_cases h2 : off + 2 > data.length
      · rw [dif_pos h2] at hw; cases hw
      · rw [dif_neg h2] at hw
        by_cases h3 : data.getD (off + 1) 0 < 2 ∨ off + data.getD (off + 1) 0 > data.length
        · rw [dif_pos h3] at hw; cases hw
        · rw [dif_neg h3] at hw
          push_neg at h3
          obtain ⟨hl2, hle⟩ := h3
          rcases hrec : vsaWalk data (off + data.getD (off + 1) 0) with _ | rest
          · rw [hrec] at hw; cases hw
          · rw [hrec] at hw
            obtain ⟨raws, hdrop, hmap⟩ :=
              ih data (off + data.getD (off + 1) 0) rest (by omega) hrec
            refine ⟨(data.getD off 0,
              jsSlice data (off + 2) (off + data.getD (off + 1) 0)) :: raws, ?_, ?_⟩
            · have hslen :=
                jsSlice_length data (off + 2) (off + data.getD (off + 1) 0) (by omega)
              rw [drop_decompose data off (data.getD (off + 1) 0) (by omega) hl2 hle]
              simp only [encodeAttrs, List.map_cons, List.flatten_cons, encodeAttr, hslen]
              rw [show off + data.getD (off + 1) 0 - (off + 2) + 2 =
                data.getD (off + 1) 0 by omega]
              simp only [List.cons_append]
              simp only [encodeAttrs] at hdrop
              rw [hdrop]
            · have hw' := Option.some_inj.1 hw
              rw [← hw']
              simp [hexSub, hmap]
    · rw [if_neg h1] at hw
      refine ⟨[], ?_, ?_⟩
      · rw [List.drop_eq_nil_of_le (by omega)]; rfl
      · simpa [encodeAttrs] using (Option.some_inj.1 hw).symm

/-! ## Client-side lemmas -/

theorem failoverLoop_mem {active : Option String} {probe : String → Bool} :
    ∀ {l : List String} {h : String}, failoverLoop active probe l = some h → h ∈ l := by
  intro l
  induction l with
  | nil => intro h hh; simp [failoverLoop] at hh
  | cons x t ih =>
    intro h hh
    simp only [failoverLoop] at hh
    by_cases hx : some x = active
    · simp [hx] at hh
      exact List.mem_cons_of_mem _ (ih hh)
    · simp [hx] at hh
      by_cases hp : probe x
      · simp [hp] at hh; exact hh ▸ List.mem_cons_self _ _
      · simp [hp] at hh; exact List.mem_cons_of_mem _ (ih hh)

theorem findFirstAlive_mem {probe : String → Bool} :
    ∀ {l : List String} {h : String}, findFirstAlive probe l = some h → h ∈ l := by
  intro l
  induction l with
  | nil => intro h hh; simp [findFirstAlive] at hh
  | cons x t ih =>
    intro h hh
    simp only [findFirstAlive] at hh
    by_cases hp : probe x
    · simp [hp] at hh; exact hh ▸ List.mem_cons_self _ _
    · simp [hp] at hh; exact List.mem_cons_of_mem _ (ih hh)

theorem failover_hosts (st : ClientState) (probe : String → Bool) :
    (failover st probe).1.hosts = st.hosts ∧
      (failover st probe).1.configHost = st.configHost := by
  unfold failover
  by_cases hg : st.inProgress
  · simp [hg]
  · simp only [hg, if_false]
    rcases hfl : failoverLoop st.activeHost probe _ with _ | h <;> simp [hfl]

theorem poolInv_failover {st : ClientState} (probe : String → Bool) (hi : PoolInv st) :
    PoolInv (failover st probe).1 := by
  unfold failover
  by_cases hg : st.inProgress
  · simpa [hg] using hi
  · simp only [hg, if_false]
    rcases hfl : failoverLoop st.activeHost probe
        (st.hosts.drop _ ++ st.hosts.take _) with _ | h
    · exact ⟨hi.1, by simp⟩
    · refine ⟨hi.1, ?_⟩
      intro a ha
      simp at ha
      subst ha
      have := failoverLoop_mem hfl
      rcases List.mem_append.1 this with hm | hm
      · exact List.mem_of_mem_drop hm
      · exact List.mem_of_mem_take hm

theorem poolInv_fastSeq {st : ClientState} (probe : String → Bool) (hi : PoolInv st) :
    PoolInv (fastFailoverSeq st probe).1 := by
  unfold fastFailoverSeq
  by_cases hg : st.inProgress
  · simpa [hg] using hi
  · simp only [hg, if_false]
    rcases hff : findFirstAlive probe st.hosts with _ | h
    · simpa using hi
    · refine ⟨hi.1, ?_⟩
      intro a ha
      simp at ha
      subst ha
      exact findFirstAlive_mem hff

theorem poolInv_healthCycle {st : ClientState} (probe : String → Bool) (hi : PoolInv st) :
    PoolInv (backgroundHealthCycle st probe) := by
  unfold backgroundHealthCycle
  rcases hact : st.activeHost with _ | h
  · rcases hff : findFirstAlive probe st.hosts with _ | h
    · simpa using hi
    · refine ⟨hi.1, ?_⟩
      intro a ha
      simp at ha
      subst ha
      exact findFirstAlive_mem hff
  · by_cases hp : probe h
    · simpa [hp] using hi
    · simpa [hp] using poolInv_failover probe hi

theorem poolInv_authTimeout {st : ClientState} (probe : String → Bool) (hi : PoolInv st) :
    PoolInv (onAuthTimeout st probe) := by
  unfold onAuthTimeout
  rcases hact : st.activeHost with _ | h
  · exact poolInv_healthCycle probe hi
  · by_cases hp : probe h
    · simpa [hp] using hi
    · simpa [hp] using poolInv_failover probe hi

theorem reachable_poolInv {st : ClientState} (hr : Reachable st) : PoolInv st := by
  induction hr with
  | init cfgHosts cfgHost =>
    constructor
    · intro hmem
      simp only [buildPool, List.mem_filter] at hmem
      simpa using hmem.2
    · intro a ha; simp at ha
  | failoverStep st probe _ ih => exact poolInv_failover probe ih
  | fastSeqStep st probe _ ih => exact poolInv_fastSeq probe ih
  | healthCycleStep st probe _ ih => exact poolInv_healthCycle probe ih
  | authTimeoutStep st probe _ ih => exact poolInv_authTimeout probe ih

/-! ## Claim theorems: client side -/

/-- Claim C5: after `probeHost` completes, any RADIUS response (accept,
reject, challenge, authenticator mismatch, or unknown code) leaves
`consecutiveFailures` at 0, stamps `lastOkAt`, and makes the probe return
true; a `timeout`/`malformed_response` outcome or a transport fault strictly
increases `consecutiveFailures` and makes the probe return false. -/
theorem probeHost_marks_alive_or_dead (h : HostHealth) (now : Nat) (r : RadiusOutcome) :
    ((r.ok = true ∨ (r.error ≠ some ("timeout") ∧ r.error ≠ some ("malformed_response"))) →
      probeUpdate h now (.response r) =
        ({ h with lastTriedAt := some now, lastOkAt := some now, consecutiveFailures := 0 }, true)) ∧
    ((r.ok = false ∧ (r.error = some ("timeout") ∨ r.error = some ("malformed_response"))) →
      probeUpdate h now (.response r) =
          ({ h with lastTriedAt := some now, consecutiveFailures := h.consecutiveFailures + 1 }, false) ∧
        h.consecutiveFailures < (probeUpdate h now (.response r)).1.consecutiveFailures) ∧
    (probeUpdate h now .fault =
        ({ h with lastTriedAt := some now, consecutiveFailures := h.consecutiveFailures + 1 }, false) ∧
      h.consecutiveFailures < (probeUpdate h now .fault).1.consecutiveFailures) := by
  refine ⟨?_, ?_, ?_⟩
  · rintro (hok | ⟨ht, hm⟩)
    · simp [probeUpdate, hok]
    · by_cases hok : r.ok <;> simp [probeUpdate, hok, ht, hm]
  · rintro ⟨hok, herr⟩
    constructor <;> simp [probeUpdate, hok, herr]
  · constructor <;> simp [probeUpdate]

/-- Witness for C5 at a concrete reject response: the host is marked alive. -/
theorem probeHost_marks_alive_or_dead_witness :
    probeUpdate ⟨none, none, 3⟩ 7
        (.response ⟨false, none, none, some ("02"), some ("access_reject")⟩) =
      ({ lastOkAt := some 7, lastTriedAt := some 7, consecutiveFailures := 0 }, true) :=
  (probeHost_marks_alive_or_dead ⟨none, none, 3⟩ 7
      ⟨false, none, none, some ("02"), some ("access_reject")⟩).1 (by decide)

theorem failoverLoop_eq_find (active : Option String) (probe : String → Bool) :
    ∀ l : List String,
      failoverLoop active probe l = (l.filter (fun h => decide (some h ≠ active))).find? probe := by
  intro l
  induction l with
  | nil => simp [failoverLoop]
  | cons x t ih =>
    by_cases hx : some x = active
    · simp [failoverLoop, hx, ih]
    · by_cases hp : probe x <;> simp [failoverLoop, hx, hp, List.find?, ih]

/-- Claim C6: `failover()` returns null at once when `inProgress` is set;
otherwise it scans the pool rotated to start after the current active host,
skips the active host, promotes the first host whose probe succeeds and
returns it, and with no success clears the active host and returns null. -/
theorem failover_behavior (st : ClientState) (probe : String → Bool) :
    (st.inProgress = true → failover st probe = (st, none)) ∧
    (st.inProgress = false →
      failover st probe =
        match ((st.hosts.drop (failoverStart st) ++ st.hosts.take (failoverStart st)).filter
            (fun h => decide (some h ≠ st.activeHost))).find? probe with
        | some h => ({ st with activeHost := some h }, some h)
        | none => ({ st with activeHost := none }, none)) := by
  constructor
  · intro hg; simp [failover, hg]
  · intro hg
    simp only [failover, hg, Bool.false_eq_true, if_false]
    rw [failoverLoop_eq_find]
    rfl

/-- Witness for C6: in pool `[a, b, c]` with `a` active and only `b`
responsive, `failover()` promotes `b`. -/
theorem failover_behavior_witness :
    failover ⟨[("a"), ("b"), ("c")], some ("a"), false, ("a")⟩ (fun h => h == ("b")) =
      (⟨[("a"), ("b"), ("c")], some ("b"), false, ("a")⟩, some ("b")) := by
  rw [(failover_behavior ⟨[("a"), ("b"), ("c")], some ("a"), false, ("a")⟩
      (fun h => h == ("b"))).2 rfl]
  decide

/-- Claim C9 counterexample: the constructor performs no validation of
`config.host`/`config.hosts` beyond `filter(Boolean)`, so the configuration
`{host: "h", hosts: [""]}` builds an empty pool, and `getActiveHost()` falls
back to `config.host`, which is not a pool member. -/
theorem getActiveHost_pool_cex :
    Reachable ⟨[], none, false, ("h")⟩ ∧
      getActiveHost ⟨[], none, false, ("h")⟩ = ("h") ∧
      getActiveHost ⟨[], none, false, ("h")⟩ ∉ (⟨[], none, false, ("h")⟩ : ClientState).hosts := by
  have hb : buildPool (some [("")]) ("h") = [] := by decide
  refine ⟨?_, rfl, by simp⟩
  have := Reachable.init (some [("")]) ("h")
  rwa [hb] at this

/-- Claim C9 (amended: the pool must be non-empty): in every reachable client
state the active host, when set, is a pool member, and with a non-empty pool
`getActiveHost()` returns a pool member (the active host, or the first pool
element as fallback). -/
theorem getActiveHost_pool_member (st : ClientState) (hr : Reachable st) :
    (∀ a, st.activeHost = some a → a ∈ st.hosts) ∧
    (st.hosts ≠ [] → getActiveHost st ∈ st.hosts) := by
  have hi := reachable_poolInv hr
  obtain ⟨hosts, active, ip, cfg⟩ := st
  refine ⟨hi.2, ?_⟩
  intro hne
  rcases active with _ | a
  · rcases hosts with _ | ⟨h, t⟩
    · simp at hne
    · have hne' : h ≠ "" := by
        intro he
        exact hi.1 (by rw [← he]; exact List.mem_cons_self _ _)
      simp [getActiveHost, hne']
  · simpa [getActiveHost] using hi.2 a rfl

/-- Witness for C9 at the one-host pool `["a"]`. -/
theorem getActiveHost_pool_member_witness :
    getActiveHost ⟨[("a")], none, false, ("a")⟩ ∈
      (⟨[("a")], none, false, ("a")⟩ : ClientState).hosts := by
  have hb : buildPool (some [("a")]) ("a") = [("a")] := by decide
  have hr : Reachable ⟨[("a")], none, false, ("a")⟩ := by
    have := Reachable.init (some [("a")]) ("a")
    rwa [hb] at this
  exact (getActiveHost_pool_member _ hr).2 (by simp)

/-- Claim C2: for a received datagram of at least 20 bytes, classification
proceeds only when `MD5(code ‖ id ‖ length-u16 ‖ request-authenticator ‖
attributes ‖ secret)` equals bytes 4..20; a differing digest resolves
`{ok:false, error:"authenticator_mismatch"}` with the raw hex; a fault inside
the hashing `try` block is treated as verified and parsing continues. -/
theorem response_authenticator_check (dict : Nat → Option AttrDef)
    (matchFn : String → List Nat → Option (List Nat)) (opts : ProtoOptions)
    (secret reqAuth msg : List Nat) (h20 : 20 ≤ msg.length) :
    (msg.length < 65536 → md5 (verifyInput secret reqAuth msg) ≠ jsSlice msg 4 20 →
      processDatagram dict matchFn opts secret reqAuth false msg =
        ⟨false, none, none, some (toHex msg), some ("authenticator_mismatch")⟩) ∧
    (md5 (verifyInput secret reqAuth msg) = jsSlice msg 4 20 →
      processDatagram dict matchFn opts secret reqAuth false msg =
        classifyStage dict matchFn opts msg) ∧
    processDatagram dict matchFn opts secret reqAuth true msg =
      classifyStage dict matchFn opts msg := by
  refine ⟨?_, ?_, ?_⟩
  · intro h64 hne
    simp only [processDatagram]
    rw [if_neg (by omega), if_pos ⟨by simp, h64, hne⟩]
  · intro heq
    simp only [processDatagram]
    rw [if_neg (by omega), if_neg (by simp [heq])]
  · simp only [processDatagram]
    rw [if_neg (by omega), if_neg (by simp)]

/-- Witness for C2: a code-2 datagram whose response authenticator is sixteen
9-bytes is rejected as an authenticator mismatch. -/
theorem response_authenticator_check_witness :
    processDatagram dict0 match0 opts0 [115] (List.replicate 16 0) false
        ([2, 0, 0, 20] ++ List.replicate 16 9) =
      ⟨false, none, none, some (toHex ([2, 0, 0, 20] ++ List.replicate 16 9)),
        some ("authenticator_mismatch")⟩ :=
  (response_authenticator_check dict0 match0 opts0 [115] (List.replicate 16 0)
      ([2, 0, 0, 20] ++ List.replicate 16 9) (by decide)).1 (by decide) (by decide)

/-- Claim C10: a verified datagram of at least 20 bytes whose code is not 2,
3, or 11 resolves exactly `{ok:false, raw:hex, error:"unknown_code"}` with no
attributes and no class: decoding and assignment extraction are skipped. -/
theorem unknown_code_skips_parsing (dict : Nat → Option AttrDef)
    (matchFn : String → List Nat → Option (List Nat)) (opts : ProtoOptions)
    (secret reqAuth : List Nat) (hashThrows : Bool) (msg : List Nat)
    (h20 : 20 ≤ msg.length)
    (hver : hashThrows = true ∨ 65536 ≤ msg.length ∨
      md5 (verifyInput secret reqAuth msg) = jsSlice msg 4 20)
    (hc2 : msg.getD 0 0 ≠ 2) (hc3 : msg.getD 0 0 ≠ 3) (hc11 : msg.getD 0 0 ≠ 11) :
    processDatagram dict matchFn opts secret reqAuth hashThrows msg =
      ⟨false, none, none, some (toHex msg), some ("unknown_code")⟩ := by
  simp only [processDatagram]
  rw [if_neg (by omega)]
  rw [if_neg (by
    rintro ⟨ha, hb, hc⟩
    rcases hver with h | h | h
    · exact ha h
    · omega
    · exact hc h)]
  simp only [classifyStage]
  rw [if_neg (by
    rintro (h | h | h)
    · exact hc2 h
    · exact hc3 h
    · exact hc11 h)]

/-- Witness for C10: the code-0 packet with a valid authenticator resolves
`unknown_code` with no attributes and no class. -/
theorem unknown_code_skips_parsing_witness :
    processDatagram dict0 match0 opts0 [115] c10auth false c10msg =
      ⟨false, none, none, some (toHex c10msg), some ("unknown_code")⟩ :=
  unknown_code_skips_parsing dict0 match0 opts0 [115] c10auth false c10msg
    (by decide) (Or.inr (Or.inr (by decide))) (by decide) (by decide) (by decide)

set_option maxRecDepth 100000 in
/-- Claim C1 (code bug): on the C1 packet the first matching attribute in
packet order is the empty Class attribute and its extracted value is the
empty string, yet the result's `class` field is "x" (0x78), the value of the
second match: the guard `if (!foundClass)` treats the already-found empty
string as unset, contradicting the source's own comment "Take the first
assignment attribute encountered" and the spec's first-wins contract. -/
theorem first_match_truthiness_bug :
    attrWalk c1msg 20 = [(25, []), (25, [120])] ∧
    extractTarget match0 opts0 25 [] = some [] ∧
    (processDatagram dict0 match0 opts0 [115] c1auth false c1msg).classVal =
      some [120] := by
  decide

set_option maxRecDepth 100000 in
/-- Claim C7 counterexample: "ok is true iff the response code is 2" fails:
a received code-2 datagram whose response authenticator does not verify
resolves with ok = false (error `authenticator_mismatch`). -/
theorem ok_iff_code2_cex :
    (txResult dict0 match0 opts0 [115] (List.replicate 16 0)
      (.received c7msg false)).ok = false ∧
    c7msg.getD 0 0 = 2 ∧
    (txResult dict0 match0 opts0 [115] (List.replicate 16 0)
      (.received c7msg false)).error = some ("authenticator_mismatch") := by
  decide

/-- Claim C7 (amended: `ok` also requires the length and authenticator checks
to pass): a completed transaction has ok = true iff a datagram of at least 20
bytes was received, its authenticator check passed or was bypassed (hashing
fault, or an oversized length that makes the length re-encoding throw), and
its code is 2; when ok is false the error is exactly one of access_reject
(code 3), access_challenge (code 11), unknown_code, authenticator_mismatch,
malformed_response (datagram shorter than 20 bytes), or timeout; and the raw
response hex is included whenever a datagram was received. -/
theorem radius_outcome_classification (dict : Nat → Option AttrDef)
    (matchFn : String → List Nat → Option (List Nat)) (opts : ProtoOptions)
    (secret reqAuth : List Nat) (out : TxOutcome) :
    ((txResult dict matchFn opts secret reqAuth out).ok = true ↔
      ∃ msg hashThrows, out = .received msg hashThrows ∧ 20 ≤ msg.length ∧
        (hashThrows = true ∨ 65536 ≤ msg.length ∨
          md5 (verifyInput secret reqAuth msg) = jsSlice msg 4 20) ∧
        msg.getD 0 0 = 2) ∧
    ((txResult dict matchFn opts secret reqAuth out).ok = false →
      ∃ e, (txResult dict matchFn opts secret reqAuth out).error = some e ∧
        e ∈ [("access_reject"), ("access_challenge"), ("unknown_code"),
          ("authenticator_mismatch"), ("malformed_response"), ("timeout")]) ∧
    (∀ msg hashThrows, out = .received msg hashThrows →
      (txResult dict matchFn opts secret reqAuth out).raw = some (toHex msg) ∧
      ((txResult dict matchFn opts secret reqAuth out).error = some ("access_reject") →
        msg.getD 0 0 = 3) ∧
      ((txResult dict matchFn opts secret reqAuth out).error = some ("access_challenge") →
        msg.getD 0 0 = 11) ∧
      ((txResult dict matchFn opts secret reqAuth out).error = some ("malformed_response") →
        msg.length < 20)) := by
  rcases out with _ | ⟨msg, ht⟩
  · refine ⟨?_, ?_, ?_⟩
    · simp [txResult]
    · intro _
      exact ⟨("timeout"), rfl, by simp⟩
    · intro msg ht h
      cases h
  · simp only [txResult]
    by_cases hlen : msg.length < 20
    · simp only [processDatagram, if_pos hlen]
      refine ⟨?_, ?_, ?_⟩
      · constructor
        · intro h; exact absurd h (by simp)
        · rintro ⟨msg', ht', heq, h20, -, -⟩
          injection heq with h1 h2
          subst h1
          omega
      · intro _
        exact ⟨("malformed_response"), rfl, by simp⟩
      · rintro msg' ht' heq
        injection heq with h1 h2
        subst h1
        exact ⟨rfl, by intro h; injection h with h; exact absurd h (by decide), by intro h; injection h with h; exact absurd h (by decide),
          fun _ => hlen⟩
    · by_cases hver : ¬ht ∧ msg.length < 65536 ∧
          md5 (verifyInput secret reqAuth msg) ≠ jsSlice msg 4 20
      · simp only [processDatagram, if_neg (by omega : ¬msg.length < 20), if_pos hver]
        obtain ⟨hth, h65, hmd⟩ := hver
        refine ⟨?_, ?_, ?_⟩
        · constructor
          · intro h; exact absurd h (by simp)
          · rintro ⟨msg', ht', heq, -, hdisj, -⟩
            injection heq with h1 h2
            subst h1
            subst h2
            rcases hdisj with h | h | h
            · exact absurd h hth
            · omega
            · exact absurd h hmd
        · intro _
          exact ⟨("authenticator_mismatch"), rfl, by simp⟩
        · rintro msg' ht' heq
          injection heq with h1 h2
          subst h1
          exact ⟨rfl, by intro h; injection h with h; exact absurd h (by decide), by intro h; injection h with h; exact absurd h (by decide),
            by intro h; injection h with h; exact absurd h (by decide)⟩
      · have hdisj : ht = true ∨ 65536 ≤ msg.length ∨
            md5 (verifyInput secret reqAuth msg) = jsSlice msg 4 20 := by
          by_cases hth : ht = true
          · exact Or.inl hth
          · by_cases h65 : 65536 ≤ msg.length
            · exact Or.inr (Or.inl h65)
            · refine Or.inr (Or.inr ?_)
              by_contra hmd
              exact hver ⟨hth, by omega, hmd⟩
        simp only [processDatagram, if_neg (by omega : ¬msg.length < 20), if_neg hver]
        simp only [classifyStage]
        by_cases h2 : msg.getD 0 0 = 2
        · rw [if_pos (Or.inl h2)]
          refine ⟨?_, ?_, ?_⟩
          · constructor
            · intro _
              exact ⟨msg, ht, rfl, by omega, hdisj, h2⟩
            · intro _
              exact decide_eq_true h2
          · intro hok
            rw [decide_eq_true h2] at hok
            cases hok
          · rintro msg' ht' heq
            injection heq with hm1 hm2
            subst hm1
            refine ⟨rfl, ?_, ?_, ?_⟩ <;>
              · intro h
                rw [if_pos h2] at h
                cases h
        · by_cases h3 : msg.getD 0 0 = 3
          · rw [if_pos (Or.inr (Or.inl h3))]
            refine ⟨?_, ?_, ?_⟩
            · constructor
              · intro h
                rw [decide_eq_false h2] at h
                cases h
              · rintro ⟨msg', ht', heq, -, -, hc⟩
                injection heq with hm1 hm2
                subst hm1
                exact absurd hc h2
            · intro _
              refine ⟨("access_reject"), ?_, by simp⟩
              rw [if_neg h2, if_pos h3]
            · rintro msg' ht' heq
              injection heq with hm1 hm2
              subst hm1
              rw [if_neg h2, if_pos h3]
              exact ⟨rfl, fun _ => h3, by intro h; injection h with h; exact absurd h (by decide),
                by intro h; injection h with h; exact absurd h (by decide)⟩
          · by_cases h11 : msg.getD 0 0 = 11
            · rw [if_pos (Or.inr (Or.inr h11))]
              refine ⟨?_, ?_, ?_⟩
              · constructor
                · intro h
                  rw [decide_eq_false h2] at h
                  cases h
                · rintro ⟨msg', ht', heq, -, -, hc⟩
                  injection heq with hm1 hm2
                  subst hm1
                  exact absurd hc h2
              · intro _
                refine ⟨("access_challenge"), ?_, by simp⟩
                rw [if_neg h2, if_neg h3, if_pos h11]
              · rintro msg' ht' heq
                injection heq with hm1 hm2
                subst hm1
                rw [if_neg h2, if_neg h3, if_pos h11]
                exact ⟨rfl, by intro h; injection h with h; exact absurd h (by decide), fun _ => h11,
                  by intro h; injection h with h; exact absurd h (by decide)⟩
            · rw [if_neg (by
                rintro (h | h | h)
                · exact h2 h
                · exact h3 h
                · exact h11 h)]
              refine ⟨?_, ?_, ?_⟩
              · constructor
                · intro h; exact absurd h (by simp)
                · rintro ⟨msg', ht', heq, -, -, hc⟩
                  injection heq with hm1 hm2
                  subst hm1
                  exact absurd hc h2
              · intro _
                exact ⟨("unknown_code"), rfl, by simp⟩
              · rintro msg' ht' heq
                injection heq with hm1 hm2
                subst hm1
                exact ⟨rfl, by intro h; injection h with h; exact absurd h (by decide), by intro h; injection h with h; exact absurd h (by decide),
                  by intro h; injection h with h; exact absurd h (by decide)⟩

/-- Witness for C7: a timed-out transaction carries one of the six error
strings. -/
theorem radius_outcome_classification_witness :
    ∃ e, (txResult dict0 match0 opts0 [115] (List.replicate 16 0) .timedOut).error =
        some e ∧
      e ∈ [("access_reject"), ("access_challenge"), ("unknown_code"),
        ("authenticator_mismatch"), ("malformed_response"), ("timeout")] :=
  (radius_outcome_classification dict0 match0 opts0 [115] (List.replicate 16 0)
    .timedOut).2.1 (by decide)

/-- Claim C3: the response attribute walk stops (totally, still yielding a
result) as soon as fewer than two bytes remain, the length byte is below 2,
or the attribute would run past the datagram end; attributes decoded before
the stop are kept, so a final attribute running past the end truncates the
walk at the previous attribute; the kept attributes are what the result
carries. -/
theorem attrWalk_truncation :
    (∀ (msg : List Nat) (off : Nat), stopCond msg off → attrWalk msg off = []) ∧
    (∀ (pre : List Nat) (attrs : List (Nat × List Nat)) (tail : List Nat),
      stopCond (pre ++ encodeAttrs attrs ++ tail) (pre.length + (encodeAttrs attrs).length) →
      attrWalk (pre ++ encodeAttrs attrs ++ tail) pre.length = attrs) ∧
    (∀ (dict : Nat → Option AttrDef) (matchFn : String → List Nat → Option (List Nat))
      (opts : ProtoOptions) (secret reqAuth msg : List Nat),
      20 ≤ msg.length →
      (msg.getD 0 0 = 2 ∨ msg.getD 0 0 = 3 ∨ msg.getD 0 0 = 11) →
      (processDatagram dict matchFn opts secret reqAuth true msg).attributes =
        some ((attrWalk msg 20).map (fun a => decodeAttribute dict a.1 a.2))) := by
  refine ⟨attrWalk_stop, ?_, ?_⟩
  · intro pre attrs tail hstop
    rw [attrWalk_append, attrWalk_stop _ _ hstop, List.append_nil]
  · intro dict matchFn opts secret reqAuth msg h20 hcode
    simp only [processDatagram]
    rw [if_neg (by omega), if_neg (by simp)]
    simp only [classifyStage]
    rw [if_pos hcode]

/-- Witness for C3: after two well-formed attributes, a final attribute whose
length byte (9) runs past the datagram end truncates the walk to the two
attributes. -/
theorem attrWalk_truncation_witness :
    attrWalk (List.replicate 20 0 ++ encodeAttrs [(25, [65]), (1, [])] ++ [7, 9])
      (List.replicate 20 0).length = [(25, [65]), (1, [])] :=
  attrWalk_truncation.2.1 (List.replicate 20 0) [(25, [65]), (1, [])] [7, 9] (by decide)

/-- Claim C8: a Vendor-Specific payload of at least 4 bytes whose remainder
after the big-endian vendor id is exactly a non-empty concatenation of
`{type, length, value}` tuples (each length ≥ 2 by construction) decodes to
the vendor id and the same ordered sub-attribute list with hex values; any
other remainder decodes to the remainder's hex, with the vendor id populated
in both cases. -/
theorem decodeVendorSpecific_roundtrip :
    (∀ (vid4 : List Nat) (subs : List (Nat × List Nat)), vid4.length = 4 → subs ≠ [] →
      decodeVendorSpecific (vid4 ++ encodeAttrs subs) =
        ⟨26, ("Vendor-Specific"), readU32BE (vid4 ++ encodeAttrs subs),
          .subs (subs.map hexSub), toHex (vid4 ++ encodeAttrs subs)⟩) ∧
    (∀ value : List Nat, 4 ≤ value.length →
      (∀ subs : List (Nat × List Nat), subs ≠ [] → value.drop 4 ≠ encodeAttrs subs) →
      decodeVendorSpecific value =
        ⟨26, ("Vendor-Specific"), readU32BE value, .hex (toHex (value.drop 4)),
          toHex value⟩) := by
  constructor
  · intro vid4 subs h4 hne
    simp only [decodeVendorSpecific]
    rw [if_neg (by simp [h4])]
    have hdrop : (vid4 ++ encodeAttrs subs).drop 4 = encodeAttrs subs := by
      rw [← h4, List.drop_left]
    rw [hdrop]
    have hwalk := vsaWalk_encode subs []
    simp only [List.nil_append, List.length_nil] at hwalk
    rw [hwalk]
    simp [hne]
  · intro value h4 hne
    simp only [decodeVendorSpecific]
    rw [if_neg (by omega)]
    rcases hw : vsaWalk (value.drop 4) 0 with _ | subsd
    · rfl
    · obtain ⟨raws, hdropr, hmap⟩ :=
        vsaWalk_sound value.length (value.drop 4) 0 subsd
          (by simp only [List.length_drop]; omega) hw
      simp only [List.drop_zero] at hdropr
      rcases raws with _ | ⟨r0, rr⟩
      · have hsub : subsd = [] := by simpa using hmap
        subst hsub
        simp
      · exact absurd hdropr (hne (r0 :: rr) (by simp))

/-- Witness for C8: vendor 9 with one sub-attribute `{type 1, value 0x4142}`
round-trips. -/
theorem decodeVendorSpecific_roundtrip_witness :
    decodeVendorSpecific ([0, 0, 0, 9] ++ encodeAttrs [(1, [65, 66])]) =
      ⟨26, ("Vendor-Specific"), readU32BE ([0, 0, 0, 9] ++ encodeAttrs [(1, [65, 66])]),
        .subs ([(1, [65, 66])].map hexSub), toHex ([0, 0, 0, 9] ++ encodeAttrs [(1, [65, 66])])⟩ :=
  decodeVendorSpecific_roundtrip.1 [0, 0, 0, 9] [(1, [65, 66])] (by decide) (by decide)

/-- Claim C4: the User-Password value zero-pads the password to a multiple of
16 bytes (one block when empty) and XORs block i with
`MD5(secret ‖ request-authenticator)` for i = 0 and
`MD5(secret ‖ previous-ciphertext-block)` for i > 0; an empty password yields
a 16-byte value. -/
theorem papEncrypt_spec_blocks (secret auth pwd : List Nat) :
    (papEncrypt secret auth pwd).length = 16 * papBlockCount pwd.length ∧
    (pwd = [] → (papEncrypt secret auth pwd).length = 16) ∧
    papEncrypt secret auth pwd =
      ((List.range (papBlockCount pwd.length)).map
        (specC secret auth
          (pwd ++ List.replicate (papBlockCount pwd.length * 16 - pwd.length) 0))).flatten := by
  have hpadlen :
      (pwd ++ List.replicate (papBlockCount pwd.length * 16 - pwd.length) 0).length =
        16 * papBlockCount pwd.length := by
    simp only [List.length_append, List.length_replicate, papBlockCount]
    by_cases h0 : pwd.length = 0 <;> simp [h0] <;> omega
  have hchunks := chunks16_spec (papBlockCount pwd.length) _ hpadlen
  have hlen : (papEncrypt secret auth pwd).length = 16 * papBlockCount pwd.length := by
    unfold papEncrypt
    rw [flatten_length_16 _ (papBlocks_sixteen secret _ auth hchunks.1),
      papBlocks_count, hchunks.2]
  refine ⟨hlen, fun hp => by rw [hlen, hp]; rfl, ?_⟩
  show (papBlocks secret auth
      (chunks16 (pwd ++ List.replicate (papBlockCount pwd.length * 16 - pwd.length) 0))).flatten = _
  rw [papBlocks_chunks secret (papBlockCount pwd.length) auth _ hpadlen]

/-- Witness for C4: the empty password encrypts to one 16-byte block. -/
theorem papEncrypt_spec_blocks_witness :
    (papEncrypt [115] (List.replicate 16 0) []).length = 16 :=
  (papEncrypt_spec_blocks [115] (List.replicate 16 0) []).2.1 rfl

end TsRadius
